import Mathlib

/-!
# Verification of the quick-API update compiler (`quickApiUpdateHandler`)

Shallow embedding of the attribute-update compiler and policy engine found in
the repository (the `quickApiUpdateHandler` module): JS objects become
association lists over `String`, JS arrays become `List`, absent properties
become `Option.none`, thrown `Exception`s become `Except.error`, and the
in-place mutation of requests / of the shared config object becomes explicit
state passing.  The spec's action names map to the source's property names:
assign = `set`, increment = `add` (append and remove keep their names).
-/

namespace QuickApi

/-- A loosely-typed JS value (the payloads carried in a mutation request),
as the small tagged value type: number, string, boolean, null, array, object. -/
inductive Value where
  | num (n : Int)
  | str (s : String)
  | bool (b : Bool)
  | null
  | arr (elems : List Value)
  | obj (fields : List (String × Value))

/-- A DynamoDB `AttributeValue` — the store's wire encoding produced by
`marshall`. -/
inductive Attr where
  | S (s : String)
  | N (s : String)
  | BOOL (b : Bool)
  | NULL
  | L (elems : List Attr)
  | M (fields : List (String × Attr))

/-- `marshall` from `/opt/dynamodb` (the AWS SDK marshaller): numbers become
`N`, strings `S`, booleans `BOOL`, null `NULL`, arrays `L`, plain objects `M`.
The call-site options (`convertTopLevelContainer`, `removeUndefinedValues`)
only affect `undefined` members and top-level containers, neither of which
exists in this value model. -/
def marshallValue : Value → Attr
  | .num n => .N (toString n)
  | .str s => .S s
  | .bool b => .BOOL b
  | .null => .NULL
  | .arr elems => .L (elems.attach.map (fun e => marshallValue e.1))
  | .obj fields => .M (fields.attach.map (fun p => (p.1.1, marshallValue p.1.2)))
termination_by v => sizeOf v
decreasing_by
  all_goals simp_wf
  · have h := List.sizeOf_lt_of_mem e.2
    omega
  · obtain ⟨⟨a, b⟩, hp⟩ := p
    have h := List.sizeOf_lt_of_mem hp
    simp only [Prod.mk.sizeOf_spec] at h ⊢
    omega

/-- Decide whether a trimmed, unsigned JS numeric literal body is numeric:
digits with at most one decimal point and at least one digit.
(Exponent and hex forms of JS number syntax are not modelled; no claim
involves them.) -/
def unsignedNumeric (l : List Char) : Bool :=
  match l.span (·.isDigit) with
  | (ds, []) => ds.length > 0
  | (ds, '.' :: rest) => rest.all (·.isDigit) && (ds.length > 0 || rest.length > 0)
  | _ => false

/-- Strip leading and trailing whitespace from a character list (the trim
JS performs before parsing a string as a number). -/
def trimWs (l : List Char) : List Char :=
  ((l.dropWhile (·.isWhitespace)).reverse.dropWhile (·.isWhitespace)).reverse

/-- JS `Number(string)` succeeds (is not NaN): trimmed empty string coerces
to `0`; otherwise an optional sign followed by a numeric body or `Infinity`. -/
def jsNumericString (s : String) : Bool :=
  match trimWs s.toList with
  | [] => true
  | c :: rest =>
    let body := if c = '+' ∨ c = '-' then rest else c :: rest
    unsignedNumeric body || body = "Infinity".toList

/-- JS array-to-string (the `Array.prototype.toString` / `join(",")`
coercion used when a value is coerced to a number): elements are joined with
`","`, `null` renders empty, nested objects render `"[object Object]"`. -/
def jsValueJoinString : Value → String
  | .num n => toString n
  | .str s => s
  | .bool b => if b then "true" else "false"
  | .null => ""
  | .obj _ => "[object Object]"
  | .arr elems => String.intercalate "," (elems.attach.map (fun e => jsValueJoinString e.1))
termination_by v => sizeOf v
decreasing_by
  simp_wf
  have h := List.sizeOf_lt_of_mem e.2
  omega

/-- JS global `isNaN(v)`: coerce `v` to a number and test for NaN.  Numbers,
booleans and `null` always coerce to numbers; strings coerce via numeric
parsing; arrays coerce through their joined string; plain objects are NaN. -/
def jsIsNaN : Value → Bool
  | .num _ => false
  | .bool _ => false
  | .null => false
  | .str s => !jsNumericString s
  | .obj _ => true
  | .arr elems => !jsNumericString (String.intercalate "," (elems.attach.map (fun e => jsValueJoinString e.1)))

/-- `isNaN(x)` where `x` may be `undefined` (absent property):
`isNaN(undefined)` is `true`. -/
def jsIsNaNOpt : Option Value → Bool
  | none => true
  | some v => jsIsNaN v

/-- JS `Array.isArray(x)` where `x` may be `undefined`. -/
def jsIsArrayOpt : Option Value → Bool
  | some (.arr _) => true
  | _ => false

/-! ## Association-list operations mirroring JS object semantics
JS object keys are unique and insertion-ordered; assigning an existing key
updates it in place, assigning a fresh key appends it. -/

/-- `m[k] = v` on a JS object: update in place if present, else append. -/
def upsert {α : Type} (m : List (String × α)) (k : String) (v : α) : List (String × α) :=
  if m.any (fun p => p.1 == k) then
    m.map (fun p => if p.1 == k then (k, v) else p)
  else m ++ [(k, v)]

/-- `m[k]` on a JS object: `undefined` when absent. -/
def alookup {α : Type} (m : List (String × α)) (k : String) : Option α :=
  (m.find? (fun p => p.1 == k)).map (fun p => p.2)

/-- `delete m[k]` on a JS object. -/
def delKey {α : Type} (m : List (String × α)) (k : String) : List (String × α) :=
  m.filter (fun p => p.1 != k)

/-- The keys of a JS object, in insertion order (`Object.keys`). -/
def keysOf {α : Type} (m : List (String × α)) : List String :=
  m.map Prod.fst

/-! ## Data model -/

/-- An item key: `{pk: <partition-key>, sk: <sort-key>}`. -/
structure Key where
  pk : String
  sk : String

/-- One mutation request (an element of `updateList`).  Each bucket is
`none` when the property is absent from the request object; note that in JS
an *empty* object or array is still truthy, so `some []` and `none` behave
differently, exactly as in the source. -/
structure Item where
  key : Option Key
  set : Option (List (String × Value))
  remove : Option (List String)
  add : Option (List (String × Value))
  append : Option (List (String × Value))

/-- One per-action rule object inside `config.actionRules`. -/
structure ActionRule where
  allowAll : Option Bool
  whitelist : Option (List String)
  blacklist : Option (List String)
  mandatoryFields : Option (List String)

/-- The `actionRules` object: one optional rule per action name. -/
structure ActionRules where
  set : Option ActionRule
  remove : Option ActionRule
  add : Option ActionRule
  append : Option ActionRule

/-- The update-handler configuration object. -/
structure Config where
  actionRules : Option ActionRules
  autoTimestamp : Bool
  autoVersion : Bool
  failOnError : Bool

/-- The per-request classified field-name lists (`allFields`, built at the
top of the per-item loop; property order `set, remove, add, append`). -/
structure AllFields where
  set : List String
  remove : List String
  add : List String
  append : List String

/-- The four action names, a closed enumeration of the keys of `allFields`. -/
inductive ActionTag where
  | set
  | remove
  | add
  | append

/-- The errors thrown by the module (each is an `Exception` with code 400 in
the source; constructors carry the data interpolated into the message). -/
inductive QErr where
  | malformedKey
  | actionNotPermitted (action : ActionTag)
  | fieldNotWhitelisted (field : String) (action : ActionTag)
  | fieldBlacklisted (field : String) (action : ActionTag)
  | jsTypeError
  | duplicateField (field : String)
  | invalidAddType (field : String)
  | invalidAppendType (field : String)
  | configError

/-- The result object of `updateExpressionBuilder`. -/
structure BuiltExpr where
  updateExpression : String
  expressionAttributeNames : List (String × String)
  expressionAttributeValues : List (String × Attr)

/-- The `data` part of one update object pushed onto `updateItems`. -/
structure UpdateData where
  TableName : String
  Key : Attr
  UpdateExpression : String
  ExpressionAttributeNames : List (String × String)
  ExpressionAttributeValues : List (String × Attr)
  ConditionExpression : String

/-- One compiled operation descriptor (`updateObj`). -/
structure UpdateObj where
  action : String
  data : UpdateData

/-! ## Field-Classifier (handler lines 138–143) -/

/-- `allFields`: `item?.set ? Object.keys(item?.set) : []` and friends.
In JS an empty object/array is truthy, so both `none` and `some []` yield
`[]` here, which `Option.getD` captures. -/
def classify (item : Item) : AllFields where
  set := keysOf (item.set.getD [])
  remove := item.remove.getD []
  add := keysOf (item.add.getD [])
  append := keysOf (item.append.getD [])

/-- `actions.reduce((acc, val) => acc.concat(allFields[val]), [])` —
the cumulative field list over all four buckets in key order. -/
def fieldsListOf (allFields : AllFields) : List String :=
  allFields.set ++ allFields.remove ++ allFields.add ++ allFields.append

/-- The bucket of `allFields` selected by an action name. -/
def fieldsFor (allFields : AllFields) : ActionTag → List String
  | .set => allFields.set
  | .remove => allFields.remove
  | .add => allFields.add
  | .append => allFields.append

/-- Truthiness of `item?.[action]` (absent is the only falsy case; empty
objects and arrays are truthy). -/
def bucketPresent (item : Item) : ActionTag → Bool
  | .set => item.set.isSome
  | .remove => item.remove.isSome
  | .add => item.add.isSome
  | .append => item.append.isSome

/-- `item?.[action]?.length > 0`: only the `remove` bucket is an array and
has a `length` property; the mapping buckets are plain objects, whose
`length` is `undefined`, and `undefined > 0` is `false`. -/
def bucketJsLengthPos (item : Item) : ActionTag → Bool
  | .remove => 0 < (item.remove.getD []).length
  | _ => false

/-- `config?.actionRules?.[action]`. -/
def ruleFor (config : Config) : ActionTag → Option ActionRule
  | .set => config.actionRules.bind (fun r => r.set)
  | .remove => config.actionRules.bind (fun r => r.remove)
  | .add => config.actionRules.bind (fun r => r.add)
  | .append => config.actionRules.bind (fun r => r.append)

/-! ## Policy Validator (`validateUpdateFields`, lines 191–272) -/

/-- Sequencing of two validation steps: the first thrown exception wins. -/
def seqE (a b : Except QErr Unit) : Except QErr Unit :=
  match a with
  | .error e => .error e
  | .ok _ => b

/-- Whitelist check (lines 218–225): every field of the bucket must be on
the whitelist; throws at the first offender. -/
def checkWhitelist (allFields : AllFields) (action : ActionTag) (rule : ActionRule) :
    Except QErr Unit :=
  match rule.whitelist with
  | none => .ok ()
  | some wl =>
    match (fieldsFor allFields action).find? (fun f => !(wl.contains f)) with
    | some f => .error (.fieldNotWhitelisted f action)
    | none => .ok ()

/-- Blacklist check (lines 227–234): no field of the bucket may be on the
blacklist; throws at the first offender. -/
def checkBlacklist (allFields : AllFields) (action : ActionTag) (rule : ActionRule) :
    Except QErr Unit :=
  match rule.blacklist with
  | none => .ok ()
  | some bl =>
    match (fieldsFor allFields action).find? (fun f => bl.contains f) with
    | some f => .error (.fieldBlacklisted f action)
    | none => .ok ()

/-- Mandatory-fields check (lines 236–243).  The source iterates
`actionRules[action].mandatoryFields` where `actionRules` is already the
per-action rule object, so that property is `undefined` and `for..of` over
it throws a `TypeError` whenever `mandatoryFields` is present.  (This code,
like the two list checks above, is unreachable from `validateOneAction`.) -/
def checkMandatory (rule : ActionRule) : Except QErr Unit :=
  match rule.mandatoryFields with
  | none => .ok ()
  | some _ => .error .jsTypeError

/-- One iteration of the per-action loop (lines 197–244). -/
def validateOneAction (allFields : AllFields) (item : Item) (config : Config)
    (action : ActionTag) : Except QErr Unit :=
  -- `if (!item?.[action]) continue;`
  if !bucketPresent item action then .ok ()
  else
    match ruleFor config action with
    | none =>
      -- `if (!actionRules || actionRules?.allowAll !== true)`
      if bucketJsLengthPos item action then .error (.actionNotPermitted action) else .ok ()
    | some rule =>
      if rule.allowAll ≠ some true then
        if bucketJsLengthPos item action then .error (.actionNotPermitted action) else .ok ()
      else if rule.allowAll = some true then
        -- `if (actionRules?.allowAll) continue;`
        .ok ()
      else
        seqE (checkWhitelist allFields action rule)
          (seqE (checkBlacklist allFields action rule) (checkMandatory rule))

/-- The duplicate scan (lines 195, 248–253): walk the cumulative field list
with a `Set`, returning the first field seen twice. -/
def firstDup : List String → List String → Option String
  | [], _ => none
  | f :: rest, seen => if seen.contains f then some f else firstDup rest (f :: seen)

/-- Cross-bucket exclusivity check (lines 248–253). -/
def checkDuplicates (fieldsList : List String) : Except QErr Unit :=
  match firstDup fieldsList [] with
  | some f => .error (.duplicateField f)
  | none => .ok ()

/-- `add` value-type check (lines 255–262): `isNaN(item.add[field])`. -/
def checkAddTypes (allFields : AllFields) (item : Item) : Except QErr Unit :=
  if 0 < allFields.add.length then
    match allFields.add.find? (fun f => jsIsNaNOpt (alookup (item.add.getD []) f)) with
    | some f => .error (.invalidAddType f)
    | none => .ok ()
  else .ok ()

/-- `append` value-type check (lines 264–271): `!Array.isArray(item.append[field])`. -/
def checkAppendTypes (allFields : AllFields) (item : Item) : Except QErr Unit :=
  if 0 < allFields.append.length then
    match allFields.append.find? (fun f => !(jsIsArrayOpt (alookup (item.append.getD []) f))) with
    | some f => .error (.invalidAppendType f)
    | none => .ok ()
  else .ok ()

/-- `validateUpdateFields(allFields, item, config)`: the per-action loop in
key order `set, remove, add, append`, then the cumulative duplicate check,
then the `add` and `append` value-type checks. -/
def validateUpdateFields (allFields : AllFields) (item : Item) (config : Config) :
    Except QErr Unit :=
  seqE (validateOneAction allFields item config .set)
    (seqE (validateOneAction allFields item config .remove)
      (seqE (validateOneAction allFields item config .add)
        (seqE (validateOneAction allFields item config .append)
          (seqE (checkDuplicates (fieldsListOf allFields))
            (seqE (checkAddTypes allFields item) (checkAppendTypes allFields item))))))

/-! ## Expression Compiler (`updateExpressionBuilder`, lines 281–343) -/

/-- ` #${field} = :${field}` (line 294). -/
def setPiece (f : String) : String :=
  " #" ++ f ++ " = :" ++ f

/-- ` #${field} = if_not_exists(#${field}, :add__start__value) + :${field}` (line 304). -/
def addPiece (f : String) : String :=
  " #" ++ f ++ " = if_not_exists(#" ++ f ++ ", :add__start__value) + :" ++ f

/-- ` #${field} = list_append(if_not_exists(#${field}, :append__start__value), :${field})` (line 314). -/
def appendPiece (f : String) : String :=
  " #" ++ f ++ " = list_append(if_not_exists(#" ++ f ++ ", :append__start__value), :" ++ f ++ ")"

/-- JS `Array.prototype.join(",")`, which is also how an array stringifies
inside the `join(',')` of line 324. -/
def joinComma (l : List String) : String :=
  String.intercalate "," l

/-- Marshal the looked-up value of a field; when called from the handler the
field always comes from the object's own keys, so the lookup succeeds. -/
def marshallOpt : Option Value → Attr
  | some v => marshallValue v
  | none => .NULL

/-- `{ ...a, ...b }`: keys of `a` in order, keys of `b` upserted after. -/
def mergeAssoc {α : Type} (a b : List (String × α)) : List (String × α) :=
  b.foldl (fun m p => upsert m p.1 p.2) a

/-- `updateExpressionBuilder(allFields, item)` (lines 281–343).  The source
builds `setExpPortion`/`addExpPortion` as arrays and `appendExpPortion` as a
string; line 324 filters the non-empty portions and joins them with `","`,
stringifying each array by `join(",")` — modelled by joining each portion's
pieces with `","` first.  `addExpression` is declared at line 283 and never
assigned, so it is always the empty string. -/
def updateExpressionBuilder (allFields : AllFields) (item : Item) : BuiltExpr :=
  let part1 :=
    if 0 < allFields.set.length ∨ 0 < allFields.add.length ∨ 0 < allFields.append.length then
      let setPieces := allFields.set.map setPiece
      let addPieces := allFields.add.map addPiece
      let appendPortion :=
        if 0 < allFields.append.length then joinComma (allFields.append.map appendPiece) else ""
      let names1 := allFields.set.foldl (fun m f => upsert m ("#" ++ f) f)
        ([] : List (String × String))
      let vals1 := allFields.set.foldl
        (fun m f => upsert m (":" ++ f) (marshallOpt (alookup (item.set.getD []) f)))
        ([] : List (String × Attr))
      let vals2 := if 0 < allFields.add.length then upsert vals1 ":add__start__value" (.N "0")
        else vals1
      let names2 := allFields.add.foldl (fun m f => upsert m ("#" ++ f) f) names1
      let vals3 := allFields.add.foldl
        (fun m f => upsert m (":" ++ f) (marshallOpt (alookup (item.add.getD []) f))) vals2
      let vals4 := if 0 < allFields.append.length then
          upsert vals3 ":append__start__value" (.L []) else vals3
      let names3 := allFields.append.foldl (fun m f => upsert m ("#" ++ f) f) names2
      let vals5 := allFields.append.foldl
        (fun m f => upsert m (":" ++ f) (marshallOpt (alookup (item.append.getD []) f))) vals4
      let portions :=
        (if 0 < setPieces.length then [joinComma setPieces] else []) ++
        (if 0 < addPieces.length then [joinComma addPieces] else []) ++
        (if 0 < appendPortion.length then [appendPortion] else [])
      ("SET" ++ joinComma portions, names3, vals5)
    else ("", ([] : List (String × String)), ([] : List (String × Attr)))
  let setExpression := part1.1
  let setNames := part1.2.1
  let setValues := part1.2.2
  let part2 :=
    if 0 < allFields.remove.length then
      ("REMOVE" ++ joinComma (allFields.remove.map (fun f => " #" ++ f)),
        allFields.remove.foldl (fun m f => upsert m ("#" ++ f) f)
          ([] : List (String × String)))
    else ("", ([] : List (String × String)))
  let removeExpression := part2.1
  let removeNames := part2.2
  let addExpression := ""
  { updateExpression :=
      String.intercalate " "
        (([setExpression, addExpression, removeExpression]).filter (fun e => 0 < e.length)),
    expressionAttributeNames := mergeAssoc setNames removeNames,
    expressionAttributeValues := setValues }

/-! ## Batch Orchestrator (`quickApiUpdateHandler`, lines 98–181) -/

/-- `validateConfig(config)` (lines 345–349): an empty `actionRules` object
is truthy, so only absence fails. -/
def validateConfig (config : Config) : Except QErr Unit :=
  if config.actionRules.isSome then .ok () else .error .configError

/-- `marshall(item.key)` for the `Key` of the update object. -/
def marshallKey (k : Key) : Attr :=
  .M [("pk", .S k.pk), ("sk", .S k.sk)]

/-- The item half of `includeFieldInAction` (lines 351–355):
`if (!request?.[action]) request[action] = {}; request[action][field] = value`.
The source is only ever called with the `set` and `add` actions; on `remove`
it would index an array, which is left as the identity here. -/
def includeFieldItem (field : String) (value : Value) (action : ActionTag)
    (request : Item) : Item :=
  match action with
  | .set => { request with set := some (upsert (request.set.getD []) field value) }
  | .add => { request with add := some (upsert (request.add.getD []) field value) }
  | .append => { request with append := some (upsert (request.append.getD []) field value) }
  | .remove => request

/-- Push `field` onto a rule's whitelist when one is present. -/
def pushWhitelistRule (r : Option ActionRule) (field : String) : Option ActionRule :=
  match r with
  | none => none
  | some rule =>
    match rule.whitelist with
    | none => some rule
    | some wl => some { rule with whitelist := some (wl ++ [field]) }

/-- The config half of `includeFieldInAction` (lines 356–359):
`if (config?.actionRules?.[action]?.whitelist) config.actionRules[action].whitelist.push(field)`. -/
def pushWhitelist (config : Config) (action : ActionTag) (field : String) : Config :=
  match config.actionRules with
  | none => config
  | some ar =>
    { config with
      actionRules := some (match action with
        | .set => { ar with set := pushWhitelistRule ar.set field }
        | .remove => { ar with remove := pushWhitelistRule ar.remove field }
        | .add => { ar with add := pushWhitelistRule ar.add field }
        | .append => { ar with append := pushWhitelistRule ar.append field }) }

/-- `includeFieldInAction(field, value, action, request, config)` — mutates
both the request and (possibly) the shared config, so it returns both. -/
def includeFieldInAction (field : String) (value : Value) (action : ActionTag)
    (request : Item) (config : Config) : Item × Config :=
  (includeFieldItem field value action request, pushWhitelist config action field)

/-- `clearRequestFieldFromAllActions(field, request)` (lines 362–372):
deletes `field` from the `set`, `add` and `append` objects and filters it
from the `remove` array (the source filters `remove` once per loop pass,
which is idempotent). -/
def clearRequestFieldFromAllActions (field : String) (request : Item) : Item :=
  { request with
    set := request.set.map (fun m => delKey m field),
    add := request.add.map (fun m => delKey m field),
    append := request.append.map (fun m => delKey m field),
    remove := request.remove.map (fun l => l.filter (fun f => f != field)) }

/-- One pass of the auto-field `.map` (lines 112–115 and 120–123): clear the
field from every bucket of the item, then include it in the target action,
threading the shared config through. -/
def autoFieldStep (field : String) (value : Value) (action : ActionTag)
    (acc : List Item × Config) (item : Item) : List Item × Config :=
  let cleared := clearRequestFieldFromAllActions field item
  let r := includeFieldInAction field value action cleared acc.2
  (acc.1 ++ [r.1], r.2)

/-- The auto-field phase of the handler (lines 110–124): `lastUpdated` into
`set` when `autoTimestamp`, then `version` (delta 1) into `add` when
`autoVersion`, applied to every item of the batch before the per-item loop. -/
def autoPhase (config : Config) (now : String) (l : List Item) : List Item × Config :=
  let r1 :=
    if config.autoTimestamp then
      l.foldl (autoFieldStep "lastUpdated" (.str now) .set) ([], config)
    else (l, config)
  if r1.2.autoVersion then
    r1.1.foldl (autoFieldStep "version" (.num 1) .add) ([], r1.2)
  else r1

/-- The body of the per-item loop (lines 129–167): key check, classify,
validate, build, wrap into the update object (whose `ConditionExpression` is
the literal `attribute_exists(pk)`). -/
def processOne (tableName : String) (config : Config) (item : Item) :
    Except QErr UpdateObj :=
  match item.key with
  | none => .error .malformedKey
  | some k =>
    -- `!key?.pk || !key?.sk`: the empty string is falsy
    if k.pk = "" ∨ k.sk = "" then .error .malformedKey
    else
      let allFields := classify item
      match validateUpdateFields allFields item config with
      | .error e => .error e
      | .ok _ =>
        let b := updateExpressionBuilder allFields item
        .ok { action := "Update",
              data := { TableName := tableName,
                        Key := marshallKey k,
                        UpdateExpression := b.updateExpression,
                        ExpressionAttributeNames := b.expressionAttributeNames,
                        ExpressionAttributeValues := b.expressionAttributeValues,
                        ConditionExpression := "attribute_exists(pk)" } }

/-- The per-item loop with its try/catch (lines 127–176): a failed item is
rethrown when `config.failOnError`, otherwise logged and skipped. -/
def runUpdates (tableName : String) (config : Config) :
    List Item → List UpdateObj → Except QErr (List UpdateObj)
  | [], acc => .ok acc
  | item :: rest, acc =>
    match processOne tableName config item with
    | .ok obj => runUpdates tableName config rest (acc ++ [obj])
    | .error e =>
      if config.failOnError then .error e else runUpdates tableName config rest acc

/-- `quickApiUpdateHandler(tableName, updateList, config)` (lines 98–181).
`getNowISO()` is modelled as the explicit `now` parameter. -/
def quickApiUpdateHandler (tableName now : String) (updateList : List Item)
    (config : Config) : Except QErr (List UpdateObj) :=
  match validateConfig config with
  | .error e => .error e
  | .ok _ =>
    let r := autoPhase config now updateList
    runUpdates tableName r.2 r.1 []

/-- The transformation one auto-field pass applies to a single item
(the composite of the clear and the include of `autoFieldStep`). -/
def autoApply (field : String) (value : Value) (action : ActionTag) (it : Item) : Item :=
  includeFieldItem field value action (clearRequestFieldFromAllActions field it)

/-- Whether a result is a duplicate-field failure (used to state that a
particular run did not fail with `DuplicateField`). -/
def isDupErr : Except QErr Unit → Bool
  | .error (.duplicateField _) => true
  | _ => false

/-! ## Concrete inputs used by the claim-level evaluations -/

/-- The key `{pk: "a", sk: "b"}`. -/
def keyAB : Key := { pk := "a", sk := "b" }

/-- An `actionRules` object with no per-action rules at all. -/
def noRules : ActionRules := { set := none, remove := none, add := none, append := none }

/-- `{allowAll: true}`. -/
def allowRule : ActionRule :=
  { allowAll := some true, whitelist := none, blacklist := none, mandatoryFields := none }

/-- A config whose `actionRules` is present but empty, all options off. -/
def cfgNoRules : Config :=
  { actionRules := some noRules, autoTimestamp := false, autoVersion := false,
    failOnError := false }

/-- A config permitting only `set`, via `allowAll: true`. -/
def cfgSetAllow : Config :=
  { cfgNoRules with actionRules := some { noRules with set := some allowRule } }

/-- A config permitting `set` and `remove`, via `allowAll: true`. -/
def cfgSetRemoveAllow : Config :=
  { cfgNoRules with
    actionRules := some { noRules with set := some allowRule, remove := some allowRule } }

/-- A config permitting only `add`, via `allowAll: true`. -/
def cfgAddAllow : Config :=
  { cfgNoRules with actionRules := some { noRules with add := some allowRule } }

/-- A `set` rule carrying a whitelist `["bar"]` but no `allowAll`. -/
def wlBarRule : ActionRule :=
  { allowAll := none, whitelist := some ["bar"], blacklist := none, mandatoryFields := none }

/-- A config whose `set` rule has whitelist `["bar"]` and no `allowAll`. -/
def cfgWlSet : Config :=
  { cfgNoRules with actionRules := some { noRules with set := some wlBarRule } }

/-- A config whose `remove` rule has whitelist `["bar"]` and no `allowAll`. -/
def cfgWlRemove : Config :=
  { cfgNoRules with actionRules := some { noRules with remove := some wlBarRule } }

/-- A config with no `actionRules` object at all. -/
def cfgNoAR : Config :=
  { actionRules := none, autoTimestamp := false, autoVersion := false, failOnError := true }

/-- A config with both auto fields on. -/
def cfgAuto : Config :=
  { actionRules := some noRules, autoTimestamp := true, autoVersion := true,
    failOnError := false }

/-- `{key:{pk:"a",sk:"b"}, set:{status:"done"}}` — the spec's worked example. -/
def itemAssign : Item :=
  { key := some keyAB, set := some [("status", .str "done")], remove := none, add := none,
    append := none }

/-- `{key:{pk:"a",sk:"b"}, remove:["status"]}`. -/
def itemRemove : Item :=
  { key := some keyAB, set := none, remove := some ["status"], add := none, append := none }

/-- A request with the field `a` in both `set` and `remove`. -/
def itemDup : Item :=
  { key := some keyAB, set := some [("a", .num 1)], remove := some ["a"], add := none,
    append := none }

/-- A request incrementing `count` by the boolean `true`. -/
def itemAddBool : Item :=
  { key := some keyAB, set := none, remove := none, add := some [("count", .bool true)],
    append := none }

/-- A request incrementing `count` by the string `"abc"`. -/
def itemAddStr : Item :=
  { key := some keyAB, set := none, remove := none, add := some [("count", .str "abc")],
    append := none }

/-- A request assigning the non-whitelisted field `foo`. -/
def itemFoo : Item :=
  { key := some keyAB, set := some [("foo", .num 1)], remove := none, add := none,
    append := none }

/-- A request removing the non-whitelisted field `foo`. -/
def itemRemoveFoo : Item :=
  { key := some keyAB, set := none, remove := some ["foo"], add := none, append := none }

/-- A well-keyed request with none of the four buckets. -/
def itemBare : Item :=
  { key := some keyAB, set := none, remove := none, add := none, append := none }

/-- A request with no key at all (fails the malformed-key check). -/
def itemNoKey : Item :=
  { key := none, set := none, remove := none, add := none, append := none }

/-- A request carrying caller-supplied `lastUpdated` and `version` entries. -/
def itemStale : Item :=
  { key := some keyAB, set := some [("lastUpdated", .str "old"), ("x", .num 5)],
    remove := some ["version"], add := some [("version", .num 9)], append := none }

/-- `itemStale` after both auto-field passes with timestamp `"T0"`. -/
def itemStaleAuto : Item :=
  { key := some keyAB, set := some [("x", .num 5), ("lastUpdated", .str "T0")],
    remove := some [], add := some [("version", .num 1)], append := none }

/-- A well-keyed request with the given key parts and no buckets. -/
def bareItem (pk sk : String) : Item :=
  { key := some { pk := pk, sk := sk }, set := none, remove := none, add := none,
    append := none }

/-- The descriptor compiled from a bucketless request: empty expression and
empty maps. -/
def bareObj (t pk sk : String) : UpdateObj :=
  { action := "Update",
    data := { TableName := t, Key := .M [("pk", .S pk), ("sk", .S sk)],
              UpdateExpression := "", ExpressionAttributeNames := [],
              ExpressionAttributeValues := [],
              ConditionExpression := "attribute_exists(pk)" } }

/-! ## Lemmas about the association-list operations -/

theorem marshallValue_str (s : String) : marshallValue (.str s) = .S s := by
  simp [marshallValue]

theorem keysOf_delKey_not_mem {α : Type} (m : List (String × α)) (k : String) :
    k ∉ keysOf (delKey m k) := by
  simp only [keysOf, delKey, List.mem_map, List.mem_filter]
  rintro ⟨p, ⟨_, hne⟩, hk⟩
  simp only [bne_iff_ne, ne_eq] at hne
  exact hne hk

theorem mem_keysOf_delKey {α : Type} {m : List (String × α)} {k a : String} :
    a ∈ keysOf (delKey m k) ↔ a ∈ keysOf m ∧ a ≠ k := by
  simp only [keysOf, delKey, List.mem_map, List.mem_filter, bne_iff_ne, ne_eq]
  constructor
  · rintro ⟨p, ⟨hp, hne⟩, rfl⟩
    exact ⟨⟨p, hp, rfl⟩, hne⟩
  · rintro ⟨⟨p, hp, rfl⟩, hne⟩
    exact ⟨p, ⟨hp, hne⟩, rfl⟩

theorem keysOf_nil {α : Type} : keysOf ([] : List (String × α)) = [] := rfl

theorem keysOf_cons {α : Type} (p : String × α) (rest : List (String × α)) :
    keysOf (p :: rest) = p.1 :: keysOf rest := rfl

theorem keysOf_append {α : Type} (m m' : List (String × α)) :
    keysOf (m ++ m') = keysOf m ++ keysOf m' := by
  simp [keysOf]

theorem alookup_nil {α : Type} (k : String) : alookup ([] : List (String × α)) k = none := rfl

theorem alookup_cons {α : Type} (p : String × α) (rest : List (String × α)) (k : String) :
    alookup (p :: rest) k = if p.1 = k then some p.2 else alookup rest k := by
  by_cases h : p.1 = k
  · simp only [alookup, List.find?]
    rw [show (p.1 == k) = true by simpa using h]
    simp [h]
  · simp only [alookup, List.find?]
    rw [show (p.1 == k) = false by simpa using h]
    simp [h, alookup]

theorem delKey_nil {α : Type} (k : String) : delKey ([] : List (String × α)) k = [] := rfl

theorem delKey_cons {α : Type} (p : String × α) (rest : List (String × α)) (k : String) :
    delKey (p :: rest) k = if p.1 = k then delKey rest k else p :: delKey rest k := by
  by_cases h : p.1 = k <;> simp [delKey, List.filter_cons, h]

theorem upsert_of_not_mem {α : Type} {m : List (String × α)} {k : String} (v : α)
    (h : k ∉ keysOf m) : upsert m k v = m ++ [(k, v)] := by
  have hany : m.any (fun p => p.1 == k) = false := by
    rw [List.any_eq_false]
    intro p hp
    simp only [beq_iff_eq]
    intro hpk
    exact h (List.mem_map.mpr ⟨p, hp, hpk⟩)
  simp [upsert, hany]

theorem count_keysOf_append_single {α : Type} (m : List (String × α)) (k : String) (v : α) :
    (keysOf (m ++ [(k, v)])).count k = (keysOf m).count k + 1 := by
  simp [keysOf, List.count_append]

theorem count_keysOf_delKey_self {α : Type} (m : List (String × α)) (k : String) :
    (keysOf (delKey m k)).count k = 0 :=
  List.count_eq_zero.mpr (keysOf_delKey_not_mem m k)

theorem alookup_append_single {α : Type} {m : List (String × α)} {k : String} (v : α)
    (h : k ∉ keysOf m) : alookup (m ++ [(k, v)]) k = some v := by
  induction m with
  | nil => simp [alookup]
  | cons p rest ih =>
    have hp : ¬ (p.1 = k) := fun hpk => h (by simp [keysOf_cons, hpk])
    have hr : k ∉ keysOf rest := fun hk => h (by simp [keysOf_cons, hk])
    rw [List.cons_append, alookup_cons, if_neg hp]
    exact ih hr

theorem alookup_delKey_ne {α : Type} (m : List (String × α)) {k a : String} (h : a ≠ k) :
    alookup (delKey m a) k = alookup m k := by
  induction m with
  | nil => rfl
  | cons p rest ih =>
    rw [delKey_cons, alookup_cons]
    by_cases hpa : p.1 = a
    · rw [if_pos hpa, if_neg (by rw [hpa]; exact h), ih]
    · rw [if_neg hpa, alookup_cons]
      by_cases hpk : p.1 = k
      · rw [if_pos hpk, if_pos hpk]
      · rw [if_neg hpk, if_neg hpk, ih]

theorem count_keysOf_delKey_ne {α : Type} (m : List (String × α)) {k a : String} (h : a ≠ k) :
    (keysOf (delKey m a)).count k = (keysOf m).count k := by
  induction m with
  | nil => rfl
  | cons p rest ih =>
    rw [delKey_cons]
    by_cases hpa : p.1 = a
    · rw [if_pos hpa, keysOf_cons, List.count_cons, ih]
      have : ¬ (p.1 = k) := by rw [hpa]; exact h
      simp [this]
    · rw [if_neg hpa, keysOf_cons, keysOf_cons, List.count_cons, List.count_cons, ih]

theorem mem_keysOf_replaceMap {α : Type} (m : List (String × α)) {k a : String} (v : α)
    (h : a ≠ k) :
    a ∈ keysOf (m.map (fun p => if p.1 == k then (k, v) else p)) ↔ a ∈ keysOf m := by
  induction m with
  | nil => simp [keysOf]
  | cons p rest ih =>
    rw [List.map_cons, keysOf_cons, keysOf_cons]
    by_cases hpk : p.1 = k
    · rw [if_pos (by simpa using hpk)]
      simp only [List.mem_cons]
      constructor
      · rintro (hk | hm)
        · exact absurd hk h
        · exact Or.inr (ih.mp hm)
      · rintro (hp | hm)
        · exact absurd (hp.trans hpk) h
        · exact Or.inr (ih.mpr hm)
    · rw [if_neg (by simpa using hpk)]
      simp only [List.mem_cons]
      exact or_congr Iff.rfl ih

theorem mem_keysOf_upsert_ne {α : Type} (m : List (String × α)) {k a : String} (v : α)
    (h : a ≠ k) : a ∈ keysOf (upsert m k v) ↔ a ∈ keysOf m := by
  unfold upsert
  split
  · exact mem_keysOf_replaceMap m v h
  · rw [keysOf_append]
    simp [keysOf, List.mem_append, h]

/-! ## Lemmas about the auto-field phase -/

theorem pushWhitelist_autoVersion (c : Config) (a : ActionTag) (f : String) :
    (pushWhitelist c a f).autoVersion = c.autoVersion := by
  unfold pushWhitelist
  cases c.actionRules <;> cases a <;> rfl

theorem pushWhitelist_failOnError (c : Config) (a : ActionTag) (f : String) :
    (pushWhitelist c a f).failOnError = c.failOnError := by
  unfold pushWhitelist
  cases c.actionRules <;> cases a <;> rfl

theorem autoFieldStep_fst (field : String) (value : Value) (action : ActionTag)
    (st : List Item × Config) (it : Item) :
    (autoFieldStep field value action st it).1 = st.1 ++ [autoApply field value action it] := rfl

theorem autoFieldStep_snd (field : String) (value : Value) (action : ActionTag)
    (st : List Item × Config) (it : Item) :
    (autoFieldStep field value action st it).2 = pushWhitelist st.2 action field := rfl

theorem foldl_autoFieldStep_fst (field : String) (value : Value) (action : ActionTag) :
    ∀ (l : List Item) (st : List Item × Config),
      (l.foldl (autoFieldStep field value action) st).1
        = st.1 ++ l.map (autoApply field value action) := by
  intro l
  induction l with
  | nil => intro st; simp
  | cons it rest ih =>
    intro st
    rw [List.foldl_cons, List.map_cons, ih, autoFieldStep_fst]
    simp

theorem foldl_autoFieldStep_autoVersion (field : String) (value : Value) (action : ActionTag) :
    ∀ (l : List Item) (st : List Item × Config),
      ((l.foldl (autoFieldStep field value action) st).2).autoVersion = st.2.autoVersion := by
  intro l
  induction l with
  | nil => intro st; rfl
  | cons it rest ih =>
    intro st
    rw [List.foldl_cons, ih, autoFieldStep_snd, pushWhitelist_autoVersion]

theorem foldl_autoFieldStep_failOnError (field : String) (value : Value) (action : ActionTag) :
    ∀ (l : List Item) (st : List Item × Config),
      ((l.foldl (autoFieldStep field value action) st).2).failOnError = st.2.failOnError := by
  intro l
  induction l with
  | nil => intro st; rfl
  | cons it rest ih =>
    intro st
    rw [List.foldl_cons, ih, autoFieldStep_snd, pushWhitelist_failOnError]

/-- The items produced by the auto-field phase: the timestamp pass (when
`autoTimestamp`) followed by the version pass (when `autoVersion`), itemwise. -/
theorem autoPhase_fst (config : Config) (now : String) (l : List Item) :
    (autoPhase config now l).1 =
      (if config.autoVersion then
        (if config.autoTimestamp then l.map (autoApply "lastUpdated" (.str now) .set) else l).map
          (autoApply "version" (.num 1) .add)
      else
        (if config.autoTimestamp then l.map (autoApply "lastUpdated" (.str now) .set) else l)) := by
  unfold autoPhase
  by_cases hts : config.autoTimestamp
  · rw [if_pos hts, if_pos hts]
    have hver : ((l.foldl (autoFieldStep "lastUpdated" (.str now) ActionTag.set)
        ([], config)).2).autoVersion = config.autoVersion :=
      foldl_autoFieldStep_autoVersion _ _ _ l ([], config)
    by_cases hv : config.autoVersion
    · rw [if_pos (by rw [hver]; exact hv), if_pos hv]
      rw [foldl_autoFieldStep_fst, foldl_autoFieldStep_fst]
      simp
    · rw [if_neg (by rw [hver]; exact hv), if_neg hv]
      rw [foldl_autoFieldStep_fst]
      simp
  · rw [if_neg hts, if_neg hts]
    by_cases hv : config.autoVersion
    · rw [if_pos hv, if_pos hv, foldl_autoFieldStep_fst]
      simp
    · rw [if_neg hv, if_neg hv]

theorem autoPhase_failOnError (config : Config) (now : String) (l : List Item) :
    (autoPhase config now l).2.failOnError = config.failOnError := by
  unfold autoPhase
  by_cases hts : config.autoTimestamp
  · rw [if_pos hts]
    have hver := foldl_autoFieldStep_autoVersion "lastUpdated" (.str now) ActionTag.set l ([], config)
    by_cases hv : config.autoVersion
    · rw [if_pos (by rw [hver]; exact hv)]
      rw [foldl_autoFieldStep_failOnError, foldl_autoFieldStep_failOnError]
    · rw [if_neg (by rw [hver]; exact hv)]
      rw [foldl_autoFieldStep_failOnError]
  · rw [if_neg hts]
    by_cases hv : config.autoVersion
    · rw [if_pos hv, foldl_autoFieldStep_failOnError]
    · rw [if_neg hv]

theorem getD_map_del (o : Option (List (String × Value))) (f : String) :
    (o.map (fun m => delKey m f)).getD [] = delKey (o.getD []) f := by
  cases o <;> rfl

theorem not_mem_filter_bne (l : List String) (f : String) :
    f ∉ l.filter (fun x => x != f) := by
  simp [List.mem_filter]

theorem mem_filter_bne_iff (l : List String) {f a : String} (h : a ≠ f) :
    a ∈ l.filter (fun x => x != f) ↔ a ∈ l := by
  simp [List.mem_filter, h]

theorem autoApply_set_eq (f : String) (v : Value) (it : Item) :
    autoApply f v .set it =
      { key := it.key,
        set := some (upsert (delKey (it.set.getD []) f) f v),
        remove := it.remove.map (fun l => l.filter (fun x => x != f)),
        add := it.add.map (fun m => delKey m f),
        append := it.append.map (fun m => delKey m f) } := by
  unfold autoApply includeFieldItem clearRequestFieldFromAllActions
  simp only [getD_map_del]

theorem autoApply_add_eq (f : String) (v : Value) (it : Item) :
    autoApply f v .add it =
      { key := it.key,
        set := it.set.map (fun m => delKey m f),
        remove := it.remove.map (fun l => l.filter (fun x => x != f)),
        add := some (upsert (delKey (it.add.getD []) f) f v),
        append := it.append.map (fun m => delKey m f) } := by
  unfold autoApply includeFieldItem clearRequestFieldFromAllActions
  simp only [getD_map_del]

/-- After one auto-field pass targeting `set`, the field occurs exactly once
in `set` (with the injected value) and nowhere else. -/
theorem autoApply_set_target (f : String) (v : Value) (it : Item) :
    (keysOf ((autoApply f v .set it).set.getD [])).count f = 1 ∧
    alookup ((autoApply f v .set it).set.getD []) f = some v ∧
    f ∉ (autoApply f v .set it).remove.getD [] ∧
    f ∉ keysOf ((autoApply f v .set it).add.getD []) ∧
    f ∉ keysOf ((autoApply f v .set it).append.getD []) := by
  rw [autoApply_set_eq]
  have hnm := keysOf_delKey_not_mem (it.set.getD []) f
  refine ⟨?_, ?_, ?_, ?_, ?_⟩
  · simp only [Option.getD_some]
    rw [upsert_of_not_mem v hnm, count_keysOf_append_single, count_keysOf_delKey_self]
  · simp only [Option.getD_some]
    rw [upsert_of_not_mem v hnm]
    exact alookup_append_single v hnm
  · simp only
    cases it.remove with
    | none => simp
    | some l => simpa using not_mem_filter_bne l f
  · simp only [getD_map_del]
    exact keysOf_delKey_not_mem _ f
  · simp only [getD_map_del]
    exact keysOf_delKey_not_mem _ f

/-- After one auto-field pass targeting `add`, the field occurs exactly once
in `add` (with the injected value) and nowhere else. -/
theorem autoApply_add_target (f : String) (v : Value) (it : Item) :
    (keysOf ((autoApply f v .add it).add.getD [])).count f = 1 ∧
    alookup ((autoApply f v .add it).add.getD []) f = some v ∧
    f ∉ (autoApply f v .add it).remove.getD [] ∧
    f ∉ keysOf ((autoApply f v .add it).set.getD []) ∧
    f ∉ keysOf ((autoApply f v .add it).append.getD []) := by
  rw [autoApply_add_eq]
  have hnm := keysOf_delKey_not_mem (it.add.getD []) f
  refine ⟨?_, ?_, ?_, ?_, ?_⟩
  · simp only [Option.getD_some]
    rw [upsert_of_not_mem v hnm, count_keysOf_append_single, count_keysOf_delKey_self]
  · simp only [Option.getD_some]
    rw [upsert_of_not_mem v hnm]
    exact alookup_append_single v hnm
  · simp only
    cases it.remove with
    | none => simp
    | some l => simpa using not_mem_filter_bne l f
  · simp only [getD_map_del]
    exact keysOf_delKey_not_mem _ f
  · simp only [getD_map_del]
    exact keysOf_delKey_not_mem _ f

/-- An auto-field pass targeting `add` does not disturb any other field
name: occurrence counts and values in `set`, and membership in the other
buckets, are unchanged for every `a ≠ f`. -/
theorem autoApply_add_preserve (f : String) (v : Value) {a : String} (ha : a ≠ f) (it : Item) :
    (keysOf ((autoApply f v .add it).set.getD [])).count a
        = (keysOf (it.set.getD [])).count a ∧
    alookup ((autoApply f v .add it).set.getD []) a = alookup (it.set.getD []) a ∧
    ((a ∈ (autoApply f v .add it).remove.getD []) ↔ a ∈ it.remove.getD []) ∧
    ((a ∈ keysOf ((autoApply f v .add it).add.getD [])) ↔ a ∈ keysOf (it.add.getD [])) ∧
    ((a ∈ keysOf ((autoApply f v .add it).append.getD []))
        ↔ a ∈ keysOf (it.append.getD [])) := by
  rw [autoApply_add_eq]
  have hfa : f ≠ a := fun he => ha he.symm
  refine ⟨?_, ?_, ?_, ?_, ?_⟩
  · simp only [getD_map_del]
    exact count_keysOf_delKey_ne _ hfa
  · simp only [getD_map_del]
    exact alookup_delKey_ne _ hfa
  · simp only
    cases it.remove with
    | none => simp
    | some l => simpa using mem_filter_bne_iff l ha
  · simp only [Option.getD_some]
    rw [mem_keysOf_upsert_ne _ v ha, mem_keysOf_delKey]
    simp [ha]
  · simp only [getD_map_del]
    rw [mem_keysOf_delKey]
    simp [ha]

/-- C6: for every request in a batch processed with `autoTimestamp: true`,
any caller-supplied `lastUpdated` entry in any of the four buckets is
discarded before validation and replaced by exactly one fresh timestamp
entry (the handler's `now`) in the `set` (assign) bucket; and with
`autoVersion: true`, any caller-supplied `version` entry is discarded and
replaced by exactly one `add` (increment) entry for `version` with delta 1.
Stated over `autoPhase`, the in-place rewrite the handler performs on the
batch before the per-request validation loop runs. -/
theorem C6_auto_fields_replace (config : Config) (now : String) (l : List Item)
    (i : Nat) (item' : Item)
    (h : (autoPhase config now l).1.get? i = some item') :
    (config.autoTimestamp = true →
      (keysOf (item'.set.getD [])).count "lastUpdated" = 1 ∧
      alookup (item'.set.getD []) "lastUpdated" = some (.str now) ∧
      "lastUpdated" ∉ item'.remove.getD [] ∧
      "lastUpdated" ∉ keysOf (item'.add.getD []) ∧
      "lastUpdated" ∉ keysOf (item'.append.getD [])) ∧
    (config.autoVersion = true →
      (keysOf (item'.add.getD [])).count "version" = 1 ∧
      alookup (item'.add.getD []) "version" = some (.num 1) ∧
      "version" ∉ item'.remove.getD [] ∧
      "version" ∉ keysOf (item'.set.getD []) ∧
      "version" ∉ keysOf (item'.append.getD [])) := by
  rw [autoPhase_fst] at h
  by_cases hts : config.autoTimestamp <;> by_cases hv : config.autoVersion
  · -- both passes run: item' = verApply (tsApply orig)
    rw [if_pos hv, if_pos hts, List.get?_map] at h
    cases ho : (l.map (autoApply "lastUpdated" (.str now) ActionTag.set)).get? i with
    | none => rw [ho] at h; simp at h
    | some y =>
      rw [ho] at h
      simp only [Option.map_some', Option.some.injEq] at h
      subst h
      constructor
      · intro _
        rw [List.get?_map] at ho
        cases horig : l.get? i with
        | none => rw [horig] at ho; simp at ho
        | some orig =>
          rw [horig] at ho
          simp only [Option.map_some', Option.some.injEq] at ho
          subst ho
          obtain ⟨c1, c2, c3, c4, c5⟩ :=
            autoApply_set_target "lastUpdated" (.str now) orig
          obtain ⟨p1, p2, p3, p4, p5⟩ :=
            autoApply_add_preserve "version" (.num 1)
              (show "lastUpdated" ≠ "version" by decide)
              (autoApply "lastUpdated" (.str now) ActionTag.set orig)
          exact ⟨p1.trans c1, p2.trans c2, fun hm => c3 (p3.mp hm),
            fun hm => c4 (p4.mp hm), fun hm => c5 (p5.mp hm)⟩
      · intro _
        exact autoApply_add_target "version" (.num 1) y
  · -- timestamp pass only
    rw [if_neg hv, if_pos hts, List.get?_map] at h
    cases horig : l.get? i with
    | none => rw [horig] at h; simp at h
    | some orig =>
      rw [horig] at h
      simp only [Option.map_some', Option.some.injEq] at h
      subst h
      exact ⟨fun _ => autoApply_set_target "lastUpdated" (.str now) orig,
        fun hvv => absurd hvv hv⟩
  · -- version pass only
    rw [if_pos hv, if_neg hts, List.get?_map] at h
    cases horig : l.get? i with
    | none => rw [horig] at h; simp at h
    | some orig =>
      rw [horig] at h
      simp only [Option.map_some', Option.some.injEq] at h
      subst h
      exact ⟨fun htt => absurd htt hts,
        fun _ => autoApply_add_target "version" (.num 1) orig⟩
  · -- neither pass runs
    exact ⟨fun htt => absurd htt hts, fun hvv => absurd hvv hv⟩

/-- Claim C6 witness: both auto-field replacements observed on the request
`itemStale`, which carries caller-supplied `lastUpdated` and `version`
entries, processed under `cfgAuto`. -/
theorem C6_auto_fields_replace_witness :
    (cfgAuto.autoTimestamp = true →
      (keysOf (itemStaleAuto.set.getD [])).count "lastUpdated" = 1 ∧
      alookup (itemStaleAuto.set.getD []) "lastUpdated" = some (.str "T0") ∧
      "lastUpdated" ∉ itemStaleAuto.remove.getD [] ∧
      "lastUpdated" ∉ keysOf (itemStaleAuto.add.getD []) ∧
      "lastUpdated" ∉ keysOf (itemStaleAuto.append.getD [])) ∧
    (cfgAuto.autoVersion = true →
      (keysOf (itemStaleAuto.add.getD [])).count "version" = 1 ∧
      alookup (itemStaleAuto.add.getD []) "version" = some (.num 1) ∧
      "version" ∉ itemStaleAuto.remove.getD [] ∧
      "version" ∉ keysOf (itemStaleAuto.set.getD []) ∧
      "version" ∉ keysOf (itemStaleAuto.append.getD [])) :=
  C6_auto_fields_replace cfgAuto "T0" [itemStale] 0 itemStaleAuto rfl

/-- Claim C1: the spec says a non-empty bucket whose action rule is absent
(or lacks `allowAll: true`) always fails with `ActionNotPermitted`.  The
code only does so for the array-shaped `remove` bucket: the mapping buckets
have no `length` property, so `item?.[action]?.length > 0` is `false` and
the request passes untouched.  First conjunct: a non-empty `set` (assign)
bucket with no `set` rule validates successfully, contradicting the claim;
second conjunct: the claim's own `remove` example does fail as stated. -/
theorem C1_action_permission_eval :
    validateUpdateFields (classify itemAssign) itemAssign cfgNoRules = .ok () ∧
    validateUpdateFields (classify itemRemove) itemRemove cfgNoRules
      = .error (.actionNotPermitted .remove) :=
  ⟨rfl, rfl⟩

/-- Claim C5: the spec says a field absent from a present whitelist fails
with `FieldNotWhitelisted`.  In the code, any rule without `allowAll: true`
takes the deny-all branch first, so the whitelist check is unreachable:
a non-whitelisted `set` field under a whitelist-only rule validates
successfully (first conjunct), and a non-whitelisted `remove` field fails
with `ActionNotPermitted` instead (second conjunct). -/
theorem C5_whitelist_unreachable_eval :
    validateUpdateFields (classify itemFoo) itemFoo cfgWlSet = .ok () ∧
    validateUpdateFields (classify itemRemoveFoo) itemRemoveFoo cfgWlRemove
      = .error (.actionNotPermitted .remove) :=
  ⟨rfl, rfl⟩

/-- Claim C7: a configuration without an `actionRules` object makes the
whole call fail immediately with the configuration error, for every batch
and regardless of `failOnError` (the config is only constrained by
`actionRules = none`, so both `failOnError` values are covered). -/
theorem C7_missing_actionRules_fatal (t now : String) (l : List Item) (config : Config)
    (h : config.actionRules = none) :
    quickApiUpdateHandler t now l config = .error .configError := by
  unfold quickApiUpdateHandler validateConfig
  rw [h]
  rfl

/-- Claim C7 witness: the configuration error on a concrete batch under a
config with `failOnError: true` and no `actionRules`. -/
theorem C7_missing_actionRules_fatal_witness :
    quickApiUpdateHandler "T" "N" [itemBare] cfgNoAR = .error .configError :=
  C7_missing_actionRules_fatal "T" "N" [itemBare] cfgNoAR rfl

/-- Claim C8: the spec's worked example.  The request
`{key:{pk:"a",sk:"b"}, assign:{status:"done"}}` under the policy
`{actionRules:{assign:{allowAll:true}}}` compiles to exactly
`SET #status = :status` with names `{"#status":"status"}` and the value
placeholder `:status` bound to the marshalled encoding of `"done"`,
which is the string attribute `S "done"`. -/
theorem C8_assign_compiles_example :
    quickApiUpdateHandler "Table1" "2025-06-01T00:00:00.000Z" [itemAssign] cfgSetAllow
      = .ok [{ action := "Update",
               data := { TableName := "Table1",
                         Key := .M [("pk", .S "a"), ("sk", .S "b")],
                         UpdateExpression := "SET #status = :status",
                         ExpressionAttributeNames := [("#status", "status")],
                         ExpressionAttributeValues :=
                           [(":status", marshallValue (.str "done"))],
                         ConditionExpression := "attribute_exists(pk)" } }] ∧
    marshallValue (.str "done") = .S "done" :=
  ⟨rfl, marshallValue_str "done"⟩

/-- Claim C10: a request with a well-formed key and none of the four
mutation buckets compiles, under any config with `actionRules` present and
the auto-fields off, to a descriptor with the empty update expression and
empty name and value maps. -/
theorem C10_empty_request_compiles (t now pk sk : String) (config : Config)
    (har : config.actionRules.isSome = true)
    (hts : config.autoTimestamp = false) (hver : config.autoVersion = false)
    (hpk : pk ≠ "") (hsk : sk ≠ "") :
    quickApiUpdateHandler t now [bareItem pk sk] config = .ok [bareObj t pk sk] := by
  have hv : validateConfig config = .ok () := by simp [validateConfig, har]
  have h1 : ¬ (config.autoTimestamp = true) := by rw [hts]; exact Bool.false_ne_true
  have h2 : ¬ (config.autoVersion = true) := by rw [hver]; exact Bool.false_ne_true
  have hap : autoPhase config now [bareItem pk sk] = ([bareItem pk sk], config) := by
    unfold autoPhase
    rw [if_neg h1, if_neg h2]
  have hpo : processOne t config (bareItem pk sk) = .ok (bareObj t pk sk) := by
    unfold processOne bareItem bareObj
    dsimp only
    rw [if_neg (by rintro (hc | hc); exact hpk hc; exact hsk hc)]
    rfl
  unfold quickApiUpdateHandler
  simp only [hv, hap]
  simp [runUpdates, hpo]

/-- Claim C10 witness: the empty compile at `pk = "a"`, `sk = "b"` under
the rule-free config. -/
theorem C10_empty_request_compiles_witness :
    quickApiUpdateHandler "T" "N" [bareItem "a" "b"] cfgNoRules
      = .ok [bareObj "T" "a" "b"] :=
  C10_empty_request_compiles "T" "N" "a" "b" cfgNoRules rfl rfl rfl
    (by decide) (by decide)

/-- Claim C2: in a three-request batch whose second (post-auto-phase)
request fails while the first and third compile, `failOnError: true` makes
the whole call fail with that request's error and return nothing, while
`failOnError: false` returns exactly the two descriptors of the first and
third requests, in their original relative order, with no trace of the
failed request. -/
theorem C2_batch_error_semantics (t now : String) (config : Config)
    (r1 r2 r3 s1 s2 s3 : Item) (c' : Config) (d1 d3 : UpdateObj) (e : QErr)
    (har : config.actionRules.isSome = true)
    (hp : autoPhase config now [r1, r2, r3] = ([s1, s2, s3], c'))
    (h1 : processOne t c' s1 = .ok d1)
    (h2 : processOne t c' s2 = .error e)
    (h3 : processOne t c' s3 = .ok d3) :
    (config.failOnError = true →
      quickApiUpdateHandler t now [r1, r2, r3] config = .error e) ∧
    (config.failOnError = false →
      quickApiUpdateHandler t now [r1, r2, r3] config = .ok [d1, d3]) := by
  have hv : validateConfig config = .ok () := by simp [validateConfig, har]
  have hfe : c'.failOnError = config.failOnError := by
    have hfo := autoPhase_failOnError config now [r1, r2, r3]
    rw [hp] at hfo
    exact hfo
  constructor
  · intro hf
    unfold quickApiUpdateHandler
    simp only [hv, hp]
    simp [runUpdates, h1, h2, hfe, hf]
  · intro hf
    unfold quickApiUpdateHandler
    simp only [hv, hp]
    simp [runUpdates, h1, h2, h3, hfe, hf]

/-- Claim C2 witness: a concrete batch `[valid, key-less, valid]` under the
rule-free config with `failOnError: false`; the call returns exactly the
two good descriptors in order. -/
theorem C2_batch_error_semantics_witness :
    (cfgNoRules.failOnError = true →
      quickApiUpdateHandler "T" "N" [bareItem "a" "b", itemNoKey, bareItem "a" "b"]
        cfgNoRules = .error .malformedKey) ∧
    (cfgNoRules.failOnError = false →
      quickApiUpdateHandler "T" "N" [bareItem "a" "b", itemNoKey, bareItem "a" "b"]
        cfgNoRules = .ok [bareObj "T" "a" "b", bareObj "T" "a" "b"]) :=
  C2_batch_error_semantics "T" "N" cfgNoRules
    (bareItem "a" "b") itemNoKey (bareItem "a" "b")
    (bareItem "a" "b") itemNoKey (bareItem "a" "b")
    cfgNoRules (bareObj "T" "a" "b") (bareObj "T" "a" "b") .malformedKey
    rfl rfl rfl rfl rfl

/-- Helper for C9: every descriptor `processOne` produces carries the
constant existence precondition. -/
theorem processOne_conditionExpr {t : String} {c : Config} {it : Item} {d : UpdateObj}
    (h : processOne t c it = .ok d) :
    d.data.ConditionExpression = "attribute_exists(pk)" := by
  unfold processOne at h
  split at h
  · simp at h
  · split at h
    · simp at h
    · dsimp only at h
      split at h
      · simp at h
      · simp only [Except.ok.injEq] at h
        subst h
        rfl

/-- Helper for C9: the loop only returns descriptors that came from
`processOne` or were already in the accumulator. -/
theorem runUpdates_conditionExpr {t : String} {c : Config} :
    ∀ (l : List Item) (acc res : List UpdateObj),
      (∀ d ∈ acc, d.data.ConditionExpression = "attribute_exists(pk)") →
      runUpdates t c l acc = .ok res →
      ∀ d ∈ res, d.data.ConditionExpression = "attribute_exists(pk)" := by
  intro l
  induction l with
  | nil =>
    intro acc res hacc h d hd
    simp only [runUpdates, Except.ok.injEq] at h
    subst h
    exact hacc d hd
  | cons item rest ih =>
    intro acc res hacc h d hd
    cases hpo : processOne t c item with
    | ok obj =>
      simp only [runUpdates, hpo] at h
      refine ih (acc ++ [obj]) res ?_ h d hd
      intro d' hd'
      rcases List.mem_append.mp hd' with hmem | hmem
      · exact hacc d' hmem
      · rw [List.mem_singleton] at hmem
        subst hmem
        exact processOne_conditionExpr hpo
    | error e =>
      simp only [runUpdates, hpo] at h
      by_cases hf : c.failOnError = true
      · rw [if_pos hf] at h
        simp at h
      · rw [if_neg hf] at h
        exact ih acc res hacc h d hd

/-- Claim C9: every operation descriptor the batch orchestrator returns,
for any batch and config, carries the store precondition
`attribute_exists(pk)` — the operation never implicitly creates a record. -/
theorem C9_descriptor_precondition (t now : String) (l : List Item) (config : Config)
    (res : List UpdateObj) (d : UpdateObj)
    (h : quickApiUpdateHandler t now l config = .ok res) (hd : d ∈ res) :
    d.data.ConditionExpression = "attribute_exists(pk)" := by
  unfold quickApiUpdateHandler at h
  cases hvc : validateConfig config with
  | error e =>
    rw [hvc] at h
    simp at h
  | ok u =>
    cases u
    simp only [hvc] at h
    exact runUpdates_conditionExpr _ [] res (by intro d' hd'; cases hd') h d hd

/-- Claim C9 witness: the precondition on the concrete descriptor compiled
from a bucketless request. -/
theorem C9_descriptor_precondition_witness :
    (bareObj "T" "a" "b").data.ConditionExpression = "attribute_exists(pk)" :=
  C9_descriptor_precondition "T" "N" [bareItem "a" "b"] cfgNoRules
    [bareObj "T" "a" "b"] (bareObj "T" "a" "b") rfl (List.mem_singleton.mpr rfl)

/-- Helper for C3: a dupe scan that returns `none` saw a duplicate-free
list whose members are all outside the seen-set. -/
theorem firstDup_eq_none_imp :
    ∀ (l seen : List String), firstDup l seen = none →
      l.Nodup ∧ ∀ x ∈ l, x ∉ seen := by
  intro l
  induction l with
  | nil =>
    intro seen _
    exact ⟨List.nodup_nil, by simp⟩
  | cons f rest ih =>
    intro seen h
    simp only [firstDup] at h
    by_cases hc : seen.contains f = true
    · rw [if_pos hc] at h
      simp at h
    · rw [if_neg hc] at h
      obtain ⟨hnd, hnin⟩ := ih (f :: seen) h
      refine ⟨List.nodup_cons.mpr ⟨fun hf => (hnin f hf) (List.mem_cons_self f seen), hnd⟩, ?_⟩
      intro x hx
      rcases List.mem_cons.mp hx with rfl | hx'
      · intro hxs
        exact hc (by simpa using hxs)
      · intro hxs
        exact (hnin x hx') (List.mem_cons_of_mem f hxs)

/-- Helper for C3: a list with a duplicate makes the dupe scan report some
field. -/
theorem firstDup_some_of_not_nodup (l : List String) (h : ¬ l.Nodup) :
    ∃ g, firstDup l [] = some g := by
  cases hf : firstDup l [] with
  | some g => exact ⟨g, rfl⟩
  | none => exact absurd (firstDup_eq_none_imp l [] hf).1 h

/-- Helper for C3: a field sitting in two distinct buckets occurs at least
twice in the cumulative field list. -/
theorem two_le_count_fieldsList (F : AllFields) {f : String} {a b : ActionTag}
    (hab : a ≠ b) (ha : f ∈ fieldsFor F a) (hb : f ∈ fieldsFor F b) :
    2 ≤ (fieldsListOf F).count f := by
  have hsum : (fieldsListOf F).count f =
      F.set.count f + F.remove.count f + F.add.count f + F.append.count f := by
    simp only [fieldsListOf, List.count_append]
  have hca : 0 < (fieldsFor F a).count f := List.count_pos_iff_mem.mpr ha
  have hcb : 0 < (fieldsFor F b).count f := List.count_pos_iff_mem.mpr hb
  cases a <;> cases b <;>
    first
      | exact absurd rfl hab
      | (simp only [fieldsFor] at hca hcb; rw [hsum]; omega)

/-- Claim C3 (amended): provided every per-action permission check passes
(the loop throws nothing), a field appearing in two distinct buckets always
makes validation fail with `DuplicateField`; the scan runs after the
per-action loop over the cumulative field list of all four buckets. -/
theorem C3_duplicate_cumulative (item : Item) (config : Config) (f : String)
    (a b : ActionTag)
    (hperm : ∀ tg : ActionTag, validateOneAction (classify item) item config tg = .ok ())
    (hab : a ≠ b)
    (ha : f ∈ fieldsFor (classify item) a)
    (hb : f ∈ fieldsFor (classify item) b) :
    ∃ g, validateUpdateFields (classify item) item config
      = .error (.duplicateField g) := by
  have h2 : 2 ≤ (fieldsListOf (classify item)).count f :=
    two_le_count_fieldsList _ hab ha hb
  have hnd : ¬ (fieldsListOf (classify item)).Nodup := by
    intro hnd
    have hle := List.nodup_iff_count_le_one.mp hnd f
    omega
  obtain ⟨g, hg⟩ := firstDup_some_of_not_nodup _ hnd
  refine ⟨g, ?_⟩
  unfold validateUpdateFields
  rw [hperm .set, hperm .remove, hperm .add, hperm .append]
  simp [seqE, checkDuplicates, hg]

/-- Claim C3 counterexample: with the field `a` in both `set` and `remove`
but the `remove` action not permitted, validation fails with
`ActionNotPermitted`, not with `DuplicateField` — the per-action loop runs
first, so the claim's unconditional "always fails with DuplicateField" is
false. -/
theorem C3_duplicate_cumulative_counterexample :
    validateUpdateFields (classify itemDup) itemDup cfgSetAllow
      = .error (.actionNotPermitted .remove) ∧
    isDupErr (validateUpdateFields (classify itemDup) itemDup cfgSetAllow) = false :=
  ⟨rfl, rfl⟩

/-- Claim C3 witness: the duplicated field `a` across `set` and `remove`,
with both actions permitted, is reported as a duplicate. -/
theorem C3_duplicate_cumulative_witness :
    ∃ g, validateUpdateFields (classify itemDup) itemDup cfgSetRemoveAllow
      = .error (.duplicateField g) :=
  C3_duplicate_cumulative itemDup cfgSetRemoveAllow "a" .set .remove
    (fun tg => by cases tg <;> rfl)
    (fun h => ActionTag.noConfusion h)
    (List.mem_singleton.mpr rfl)
    (List.mem_singleton.mpr rfl)

/-- Helper for C4: the `add`-type check fails with `InvalidIncrementType`
exactly when some `add` field's value is NaN under JS numeric coercion. -/
theorem checkAddTypes_error_iff (A : AllFields) (it : Item) :
    (∃ f, checkAddTypes A it = .error (.invalidAddType f)) ↔
    (∃ f ∈ A.add, jsIsNaNOpt (alookup (it.add.getD []) f) = true) := by
  unfold checkAddTypes
  by_cases hlen : 0 < A.add.length
  · rw [if_pos hlen]
    cases hf : A.add.find? (fun f => jsIsNaNOpt (alookup (it.add.getD []) f)) with
    | some f =>
      constructor
      · intro _
        have hpred := List.find?_some hf
        exact ⟨f, List.mem_of_find?_eq_some hf, by simpa using hpred⟩
      · intro _
        exact ⟨f, rfl⟩
    | none =>
      have hnone := List.find?_eq_none.mp hf
      constructor
      · rintro ⟨f, hff⟩
        simp at hff
      · rintro ⟨f, hmem, hnan⟩
        exact absurd hnan (by simpa using hnone f hmem)
  · rw [if_neg hlen]
    have hnil : A.add = [] := List.length_eq_zero.mp (by omega)
    constructor
    · rintro ⟨f, hff⟩
      simp at hff
    · rintro ⟨f, hmem, _⟩
      rw [hnil] at hmem
      exact absurd hmem (List.not_mem_nil f)

/-- Helper for C4: the `add`-type check either passes or fails with
`InvalidIncrementType`. -/
theorem checkAddTypes_ok_or (A : AllFields) (it : Item) :
    checkAddTypes A it = .ok () ∨
    ∃ f, checkAddTypes A it = .error (.invalidAddType f) := by
  unfold checkAddTypes
  by_cases hlen : 0 < A.add.length
  · rw [if_pos hlen]
    cases hf : A.add.find? (fun f => jsIsNaNOpt (alookup (it.add.getD []) f)) with
    | some f => exact Or.inr ⟨f, rfl⟩
    | none => exact Or.inl rfl
  · rw [if_neg hlen]
    exact Or.inl rfl

/-- Helper for C4: the `append`-type check never reports
`InvalidIncrementType`. -/
theorem checkAppendTypes_ne_addErr (A : AllFields) (it : Item) (f : String) :
    checkAppendTypes A it ≠ .error (.invalidAddType f) := by
  unfold checkAppendTypes
  by_cases hlen : 0 < A.append.length
  · rw [if_pos hlen]
    cases hf : A.append.find?
        (fun g => !(jsIsArrayOpt (alookup (it.append.getD []) g))) with
    | some g => simp
    | none => simp
  · rw [if_neg hlen]
    simp

/-- Claim C4 (amended): once the per-action permission loop and the
duplicate scan pass, validation fails with `InvalidIncrementType` exactly
when some field of the increment (`add`) bucket has a value that is NaN
under JavaScript numeric coercion (`isNaN`); in particular every plain
number passes, but so do booleans, `null`, and numeric strings. -/
theorem C4_increment_isNaN_iff (item : Item) (config : Config)
    (h1 : validateOneAction (classify item) item config .set = .ok ())
    (h2 : validateOneAction (classify item) item config .remove = .ok ())
    (h3 : validateOneAction (classify item) item config .add = .ok ())
    (h4 : validateOneAction (classify item) item config .append = .ok ())
    (hd : checkDuplicates (fieldsListOf (classify item)) = .ok ()) :
    ((∃ f, validateUpdateFields (classify item) item config
        = .error (.invalidAddType f)) ↔
      (∃ f ∈ (classify item).add,
        jsIsNaNOpt (alookup (item.add.getD []) f) = true)) := by
  unfold validateUpdateFields
  rw [h1, h2, h3, h4, hd]
  simp only [seqE]
  rw [← checkAddTypes_error_iff (classify item) item]
  constructor
  · rintro ⟨f, hf⟩
    rcases checkAddTypes_ok_or (classify item) item with hok | ⟨g, hg⟩
    · rw [hok] at hf
      simp only [seqE] at hf
      exact absurd hf (checkAppendTypes_ne_addErr _ _ f)
    · exact ⟨g, hg⟩
  · rintro ⟨f, hf⟩
    refine ⟨f, ?_⟩
    rw [hf]

/-- Claim C4 counterexample: the boolean `true` is a non-numeric value, yet
incrementing `count` by it passes validation, because `isNaN(true)` is
`false` (booleans coerce to numbers); the claim's "fails on any non-numeric
value" is false as stated. -/
theorem C4_increment_isNaN_counterexample :
    alookup (itemAddBool.add.getD []) "count" = some (.bool true) ∧
    validateUpdateFields (classify itemAddBool) itemAddBool cfgAddAllow = .ok () :=
  ⟨rfl, rfl⟩

/-- Claim C4 witness: the amended equivalence instantiated at a request
incrementing `count` by the string `"abc"` under an allow-all `add` rule. -/
theorem C4_increment_isNaN_witness :
    ((∃ f, validateUpdateFields (classify itemAddStr) itemAddStr cfgAddAllow
        = .error (.invalidAddType f)) ↔
      (∃ f ∈ (classify itemAddStr).add,
        jsIsNaNOpt (alookup (itemAddStr.add.getD []) f) = true)) :=
  C4_increment_isNaN_iff itemAddStr cfgAddAllow rfl rfl rfl rfl rfl

end QuickApi
